import Mathlib

/-!
# Verification of the Kyrin routing and dispatch core

Shallow embedding of the Kyrin web framework's path-matching engine
(`src/router/radix-tree.ts`, `src/router/router.ts`) and request dispatch
pipeline (`src/core/kyrin.ts`), with theorems settling the specification
claims about routing priority, the static route cache, middleware
composition, result normalization and error handling.

JavaScript `Map` objects are embedded as association lists with
insertion-order update semantics; handlers are abstract values (the tree
and router are polymorphic in the handler type); the asynchronous pipeline
is embedded as explicit state passing where thrown exceptions become
`Except.error` results.
-/

set_option maxRecDepth 4096

namespace Kyrin

/-! ## JavaScript collection primitives -/

/-- `Map.get`: first entry with the given key (keys are unique in a JS map). -/
def mapGet {κ β : Type} [DecidableEq κ] : List (κ × β) → κ → Option β
  | [], _ => none
  | (k, v) :: rest, key => if k = key then some v else mapGet rest key

/-- `Map.set`: replace the value in place if the key is present, else append. -/
def mapSet {κ β : Type} [DecidableEq κ] : List (κ × β) → κ → β → List (κ × β)
  | [], key, val => [(key, val)]
  | (k, v) :: rest, key, val =>
    if k = key then (k, val) :: rest else (k, v) :: mapSet rest key val

/-- `Map.delete`: remove the entries with the given key. -/
def mapDelete {κ β : Type} [DecidableEq κ] (m : List (κ × β)) (key : κ) : List (κ × β) :=
  m.filter (fun e => e.1 ≠ key)

/-- Object spread `\x7b ...base, ...extra \x7d`: keys of `extra` override values of
`base` in place; keys only in `extra` are appended. -/
def objMerge (base extra : List (String × String)) : List (String × String) :=
  (base.map (fun e => ((e.1, (mapGet extra e.1).getD e.2) : String × String))) ++
    extra.filter (fun e => mapGet base e.1 = none)

/-! ## Path segmentation

`splitPath` in `radix-tree.ts` strips leading and trailing slashes with a
regular expression and then calls `String.split("/")`. The embedding works
on the character list of the path. -/

/-- Split a character list on `'/'`; mirrors JavaScript `String.split("/")`
(the empty string yields one empty segment). -/
def splitChars : List Char → List (List Char)
  | [] => [[]]
  | c :: rest =>
    if c = '/' then [] :: splitChars rest
    else
      match splitChars rest with
      | s :: ss => (c :: s) :: ss
      | [] => [[c]]

/-- Strip leading and trailing `'/'` characters; mirrors the regular
expression replacement of leading/trailing slash runs with the empty string. -/
def stripSlashes (cs : List Char) : List Char :=
  ((cs.dropWhile (fun c => c = '/')).reverse.dropWhile (fun c => c = '/')).reverse

/-- `splitPath` from `radix-tree.ts`: strip edge slashes, split on `'/'`. -/
def splitPath (path : String) : List String :=
  (splitChars (stripSlashes path.data)).map String.mk

/-- Model of JavaScript `String.includes` for a single-character needle. -/
def includesChar (s : String) (c : Char) : Bool := s.data.contains c

/-- `segment.startsWith(":")`: the first character is a colon. -/
def isParamSeg (s : String) : Bool := s.data.head? = some ':'

/-- `segment === "*"`: the segment is exactly the wildcard marker. -/
def isWildSeg (s : String) : Bool := s = "*"

/-- `segment.slice(1)`: drop the first character. -/
def sliceOne (s : String) : String := String.mk s.data.tail

/-! ## The radix tree (`src/router/radix-tree.ts`) -/

/-- `RadixNode`, polymorphic in the handler type: literal segment text,
static children map, optional handler, parameter name (on parameter
nodes), wildcard flag, at most one parameter child and at most one
wildcard child. -/
inductive RadixNode (α : Type) : Type where
  | mk (path : String)
       (children : List (String × RadixNode α))
       (handler : Option α)
       (paramName : Option String)
       (isWildcard : Bool)
       (paramChild : Option (RadixNode α))
       (wildcardChild : Option (RadixNode α)) : RadixNode α

namespace RadixNode

def path {α : Type} : RadixNode α → String
  | mk p _ _ _ _ _ _ => p

def children {α : Type} : RadixNode α → List (String × RadixNode α)
  | mk _ c _ _ _ _ _ => c

def handler {α : Type} : RadixNode α → Option α
  | mk _ _ h _ _ _ _ => h

def paramName {α : Type} : RadixNode α → Option String
  | mk _ _ _ n _ _ _ => n

def isWildcard {α : Type} : RadixNode α → Bool
  | mk _ _ _ _ w _ _ => w

def paramChild {α : Type} : RadixNode α → Option (RadixNode α)
  | mk _ _ _ _ _ pc _ => pc

def wildcardChild {α : Type} : RadixNode α → Option (RadixNode α)
  | mk _ _ _ _ _ _ wc => wc

/-- `createNode(path)` from `radix-tree.ts`. -/
def createNode {α : Type} (path : String := "") : RadixNode α :=
  mk path [] none none false none none

/-- The segment-level part of `RadixTree.insert`: walk the segments,
descending into (creating if absent) the static / parameter / wildcard
child, then set the handler on the final node (overwriting any previous
handler there). A parameter child existing from a prior insertion is
reused as-is, keeping its originally bound name. -/
def insertSegs {α : Type} : List String → α → RadixNode α → RadixNode α
  | [], h, mk p c _ pn w pc wc => mk p c (some h) pn w pc wc
  | seg :: rest, h, mk p c hd pn w pc wc =>
    if isParamSeg seg then
      let child := match pc with
        | some pcn => pcn
        | none => mk "" [] none (some (sliceOne seg)) false none none
      mk p c hd pn w (some (insertSegs rest h child)) wc
    else if isWildSeg seg then
      let child := match wc with
        | some wcn => wcn
        | none => mk "" [] none none true none none
      mk p c hd pn w pc (some (insertSegs rest h child))
    else
      let child := match mapGet c seg with
        | some ch => ch
        | none => createNode seg
      mk p (mapSet c seg (insertSegs rest h child)) hd pn w pc wc

end RadixNode

/-- Result of a successful lookup: handler plus captured parameters
(`Object.fromEntries` of the parameter map, embedded as the entry list). -/
structure LookupResult (α : Type) where
  handler : α
  params : List (String × String)
deriving DecidableEq, Repr

/-- Parameter map state threaded through the search (a mutable JS `Map` in
the source). -/
abbrev Params := List (String × String)

/-- `RadixTree.search`: recursive lookup with static > parameter > wildcard
priority and backtracking. The parameter map is mutated in place in the
source, so the embedding threads it through and returns it alongside the
result (bindings deleted on parameter backtracking, but a wildcard binding
written on a failed wildcard attempt persists, as in the source). -/
def RadixNode.search {α : Type} : RadixNode α → List String → Params →
    Option (LookupResult α) × Params
  | node, [], params =>
    match node.handler with
    | some h => (some ⟨h, params⟩, params)
    | none =>
      match node.wildcardChild with
      | some w =>
        match w.handler with
        | some h => (some ⟨h, params⟩, params)
        | none => (none, params)
      | none => (none, params)
  | node, seg :: rest, params =>
    match (match mapGet node.children seg with
           | some sc => RadixNode.search sc rest params
           | none => (none, params)) with
    | (some r, p) => (some r, p)
    | (none, p1) =>
      match (match node.paramChild with
             | some pc =>
               match RadixNode.search pc rest (mapSet p1 (pc.paramName.getD "") seg) with
               | (some r, p) => (some r, p)
               | (none, p3) => (none, mapDelete p3 (pc.paramName.getD ""))
             | none => (none, p1)) with
      | (some r, p) => (some r, p)
      | (none, p4) =>
        match node.wildcardChild with
        | some w =>
          match w.handler with
          | some h => (some ⟨h, mapSet p4 "wildcard" (String.intercalate "/" (seg :: rest))⟩,
                       mapSet p4 "wildcard" (String.intercalate "/" (seg :: rest)))
          | none => (none, mapSet p4 "wildcard" (String.intercalate "/" (seg :: rest)))
        | none => (none, p4)

/-- `RadixTree`: a root node. -/
structure RadixTree (α : Type) where
  root : RadixNode α

/-- A freshly constructed tree (`new RadixTree()`). -/
def RadixTree.empty {α : Type} : RadixTree α := ⟨RadixNode.createNode⟩

/-- `RadixTree.insert(path, handler)`. -/
def RadixTree.insert {α : Type} (t : RadixTree α) (path : String) (h : α) : RadixTree α :=
  ⟨RadixNode.insertSegs (splitPath path) h t.root⟩

/-- `RadixTree.lookup(path)`: search from the root with a fresh parameter map. -/
def RadixTree.lookup {α : Type} (t : RadixTree α) (path : String) : Option (LookupResult α) :=
  (RadixNode.search t.root (splitPath path) []).1

/-! ## The router (`src/router/router.ts`) -/

inductive HttpMethod : Type where
  | GET | POST | PUT | DELETE | PATCH | OPTIONS | HEAD
deriving DecidableEq, Repr

/-- `Router`: one radix tree and one static-route cache per HTTP method
(the source creates the per-method entries lazily; absent entries behave
as empty, which `getTree` / `getStaticRoutes` realize with a default). -/
structure Router (α : Type) where
  trees : List (HttpMethod × RadixTree α)
  staticRoutes : List (HttpMethod × List (String × α))

/-- `new Router()`. -/
def Router.empty {α : Type} : Router α := ⟨[], []⟩

/-- `Router.getTree(method)`: the tree for the method, empty if absent. -/
def Router.getTree {α : Type} (r : Router α) (m : HttpMethod) : RadixTree α :=
  (mapGet r.trees m).getD RadixTree.empty

/-- `Router.getStaticRoutes(method)`: the cache for the method, empty if absent. -/
def Router.getStaticRoutes {α : Type} (r : Router α) (m : HttpMethod) : List (String × α) :=
  (mapGet r.staticRoutes m).getD []

/-- The cache condition in `Router.on`:
`!path.includes(":") && !path.includes("*")`. -/
def isLitPattern (path : String) : Bool :=
  !(includesChar path ':') && !(includesChar path '*')

/-- `Router.on(method, path, handler)`: cache the handler under the exact
pattern string when the pattern has no dynamic markers, and always insert
into the method's tree. -/
def Router.on {α : Type} (r : Router α) (m : HttpMethod) (path : String) (h : α) : Router α :=
  let r1 : Router α :=
    if isLitPattern path then
      { r with staticRoutes := mapSet r.staticRoutes m (mapSet (r.getStaticRoutes m) path h) }
    else r
  { r1 with trees := mapSet r1.trees m ((r1.getTree m).insert path h) }

/-- `Router.match(method, path)`: static cache first (JS truthiness on the
cached handler, which as a function is always truthy), then tree lookup. -/
def Router.match {α : Type} (r : Router α) (m : HttpMethod) (path : String) :
    Option (LookupResult α) :=
  match mapGet (r.getStaticRoutes m) path with
  | some h => some ⟨h, []⟩
  | none =>
    match (r.getTree m).lookup path with
    | some result => some ⟨result.handler, result.params⟩
    | none => none

/-- A registration triple, and `regAll`: apply a sequence of `Router.on`
registrations to a fresh router. -/
def regAll {α : Type} (regs : List (HttpMethod × String × α)) : Router α :=
  regs.foldl (fun r x => r.on x.1 x.2.1 x.2.2) Router.empty

/-! ## The dispatch pipeline (`src/core/kyrin.ts`)

The pipeline is asynchronous and effectful; the embedding threads an
explicit state through every callable. The state pairs the per-request
`Context` with an external component `σ` (used by the theorems to record
side effects such as markers and counters), and a thrown exception is an
`Except.error` result carrying the error value. -/

/-- A JavaScript `Error` value: name, message and stack. -/
structure JsError where
  name : String := "Error"
  message : String
  stack : String := ""
deriving DecidableEq, Repr

/-- An HTTP response as built by `new Response(body, init)`: body (possibly
`null`), status and headers. -/
structure Response where
  body : Option String
  status : Nat
  headers : List (String × String)
deriving DecidableEq, Repr

/-- Modelled from the spec: the `Context` class (`src/context/context.ts`
is not in the source tree). One instance per in-flight request, holding
the captured parameter bindings, a free-form store, and the pending
response overrides applied during normalization: pending status defaults
to 200 and pending headers to the empty set. -/
structure Context where
  params : List (String × String)
  store : List (String × String) := []
  setStatus : Nat := 200
  setHeaders : List (String × String) := []
deriving DecidableEq, Repr

/-- A flat JSON object value, standing for the non-`Response`, non-string,
non-null results a handler may return; `jsonStringify` is its
`JSON.stringify` serialization. -/
def JsonObj : Type := List (String × String)

/-- Escape a string for JSON output (quote and backslash). -/
def jsonEscape (s : String) : String :=
  String.mk (s.data.foldr (fun c acc =>
    if c = '"' ∨ c = '\\' then '\\' :: c :: acc else c :: acc) [])

/-- `JSON.stringify` on a flat string-valued object. -/
def jsonStringify (o : JsonObj) : String :=
  "\x7b" ++ String.intercalate ","
    (o.map (fun e => "\"" ++ jsonEscape e.1 ++ "\":\"" ++ jsonEscape e.2 ++ "\"")) ++ "\x7d"

/-- `HandlerResponse`: `Response | object | string | null | void`
(`null` and `undefined`/`void` are both normalized to 204, collapsed into
one constructor). -/
inductive HandlerResponse : Type where
  | resp (r : Response)
  | str (s : String)
  | nul
  | obj (o : JsonObj)

/-- `Kyrin.toResponse(result, ctx)`: normalization of a handler result
(`src/core/kyrin.ts`). A `Response` passes through; a string becomes a
`text/plain` response with the context's pending status and headers
spread over the content type; `null`/`undefined` becomes an empty 204
response; anything else is JSON-serialized with `application/json`. -/
def toResponse (result : HandlerResponse) (ctx : Context) : Response :=
  match result with
  | .resp r => r
  | .str s =>
    ⟨some s, ctx.setStatus, objMerge [("Content-Type", "text/plain")] ctx.setHeaders⟩
  | .nul => ⟨none, 204, []⟩
  | .obj o =>
    ⟨some (jsonStringify o), ctx.setStatus,
      objMerge [("Content-Type", "application/json")] ctx.setHeaders⟩

/-- `Kyrin.defaultErrorHandler(error, c)`: development mode returns the
error text and stack as `text/plain`; production returns a fixed message;
both with status 500. -/
def defaultErrorHandler (development : Bool) (e : JsError) (_c : Context) : Response :=
  if development then
    ⟨some ("Error: " ++ e.name ++ ": " ++ e.message ++ "\n\n" ++ e.stack), 500,
      [("Content-Type", "text/plain")]⟩
  else ⟨some "Internal Server Error", 500, []⟩

/-- The state threaded through one request's pipeline: the `Context` plus
an external effect state `σ`. -/
abbrev St (σ : Type) := Context × σ

/-- A request hook: may return a `Response` (`some`) or anything else
(`none`), may mutate the state, may throw. -/
abbrev Hook (σ : Type) := St σ → Except JsError (Option Response) × St σ

/-- A route handler. -/
abbrev Handler (σ : Type) := St σ → Except JsError HandlerResponse × St σ

/-- A continuation (`next`): produces the inner chain's result. -/
abbrev Next (σ : Type) := St σ → Except JsError (Option Response) × St σ

/-- A middleware: `(context, continuation) → result` where the context
lives inside the threaded state. -/
abbrev Middleware (σ : Type) := St σ → Next σ → Except JsError (Option Response) × St σ

/-- An error handler collaborator: `(error, context) → response`. -/
abbrev ErrHandler (σ : Type) := JsError → St σ → Response × St σ

/-- Modelled from the spec: `compose` (`src/middleware/compose.ts` is not
in the source tree). Builds one callable equivalent to nesting
`middlewares[0]` around a continuation that is `middlewares[1]` around …
around the terminal continuation. -/
def compose {σ : Type} : List (Middleware σ) → Middleware σ
  | [], st, next => next st
  | m :: rest, st, next => m st (fun st2 => compose rest st2 next)

/-- The Kyrin application state relevant to one dispatch: the router, the
registered middleware and hook lists, the configured error handler
(`config.onError ?? defaultErrorHandler`) and the development flag. -/
structure KyrinApp (σ : Type) where
  router : Router (Handler σ)
  middlewares : List (Middleware σ) := []
  requestHooks : List (Hook σ) := []
  responseHooks : List (Hook σ) := []
  errorHandler : ErrHandler σ
  development : Bool := false

/-- The request-hook loop in `handleRequest`: run hooks in order, stopping
with a hook's `Response` result or its exception. -/
def runRequestHooks {σ : Type} : List (Hook σ) → St σ → Except JsError (Option Response) × St σ
  | [], st => (Except.ok none, st)
  | h :: rest, st =>
    match h st with
    | (Except.error e, st') => (Except.error e, st')
    | (Except.ok (some r), st') => (Except.ok (some r), st')
    | (Except.ok none, st') => runRequestHooks rest st'

/-- The response-hook loop in `handleRequest`: run hooks in order, ignoring
their results but propagating exceptions. -/
def runResponseHooks {σ : Type} : List (Hook σ) → St σ → Except JsError Unit × St σ
  | [], st => (Except.ok (), st)
  | h :: rest, st =>
    match h st with
    | (Except.error e, st') => (Except.error e, st')
    | (Except.ok _, st') => runResponseHooks rest st'

/-- An incoming request after the hot-path method/path extraction of
`handleRequest`. -/
structure Request where
  method : HttpMethod
  path : String

/-- The terminal continuation built in `handleRequest`'s middleware branch:
invoke the matched handler and normalize its result against the context
at completion time. -/
def terminalNext {σ : Type} (handler : Handler σ) : Next σ :=
  fun st =>
    match handler st with
    | (Except.error e, st') => (Except.error e, st')
    | (Except.ok hr, st') => (Except.ok (some (toResponse hr st'.1)), st')

/-- `Kyrin.handleRequest(req)` (`src/core/kyrin.ts`): match the route
(miss → 404 with nothing run), build a fresh context, run request hooks
(a hook's `Response` short-circuits), invoke the handler directly when no
middleware is registered or the composed middleware chain otherwise
(`middlewareResponse ?? 500`), run response hooks, and funnel any thrown
exception to the configured error handler exactly once. -/
def handleRequest {σ : Type} (app : KyrinApp σ) (req : Request) (s : σ) : Response × σ :=
  match app.router.match req.method req.path with
  | none => (⟨some "Not Found", 404, []⟩, s)
  | some result =>
    let st : St σ := ({ params := result.params }, s)
    match runRequestHooks app.requestHooks st with
    | (Except.error e, st') => ((app.errorHandler e st').1, (app.errorHandler e st').2.2)
    | (Except.ok (some r), st') => (r, st'.2)
    | (Except.ok none, st') =>
      match (if app.middlewares.isEmpty then
               match result.handler st' with
               | (Except.error e, st2) => (Except.error e, st2)
               | (Except.ok hr, st2) => (Except.ok (toResponse hr st2.1), st2)
             else
               match compose app.middlewares st' (terminalNext result.handler) with
               | (Except.error e, st2) => (Except.error e, st2)
               | (Except.ok mres, st2) =>
                 (Except.ok (mres.getD ⟨some "Internal Server Error", 500, []⟩), st2)) with
      | (Except.error e, st2) => ((app.errorHandler e st2).1, (app.errorHandler e st2).2.2)
      | (Except.ok response, st2) =>
        match runResponseHooks app.responseHooks st2 with
        | (Except.error e, st3) => ((app.errorHandler e st3).1, (app.errorHandler e st3).2.2)
        | (Except.ok _, st3) => (response, st3.2)

/-! ## Derived notions used by the theorems -/

/-- The static branch of one step of `search`: recurse into the static
child keyed by the exact segment, or fail leaving the parameter map
untouched. -/
def staticAttempt {α : Type} (n : RadixNode α) (seg : String) (rest : List String)
    (params : Params) : Option (LookupResult α) × Params :=
  match mapGet n.children seg with
  | some sc => RadixNode.search sc rest params
  | none => (none, params)

/-- The parameter branch of one step of `search`: bind the segment under
the parameter child's name, recurse, and unbind on failure. -/
def paramAttempt {α : Type} (n : RadixNode α) (seg : String) (rest : List String)
    (params : Params) : Option (LookupResult α) × Params :=
  match n.paramChild with
  | some pc =>
    match RadixNode.search pc rest (mapSet params (pc.paramName.getD "") seg) with
    | (some r, p) => (some r, p)
    | (none, p3) => (none, mapDelete p3 (pc.paramName.getD ""))
  | none => (none, params)

/-- Follow only static children along a segment list. -/
def followStatic {α : Type} : RadixNode α → List String → Option (RadixNode α)
  | n, [] => some n
  | n, s :: rest =>
    match mapGet n.children s with
    | some c => followStatic c rest
    | none => none

/-- The handler reachable by a purely static descent. -/
def followStaticHandler {α : Type} (n : RadixNode α) (segs : List String) : Option α :=
  (followStatic n segs).bind RadixNode.handler

/-- Every segment is static for the tree: not a parameter marker and not
the bare wildcard. -/
def allTreeLit (segs : List String) : Bool :=
  segs.all (fun s => !isParamSeg s && !isWildSeg s)

/-- The static cache entry for an exact path string. -/
def cacheGet {α : Type} (r : Router α) (m : HttpMethod) (p : String) : Option α :=
  mapGet (r.getStaticRoutes m) p

/-- No two cacheable (marker-free) patterns registered for the same method
are distinct strings normalizing to the same segment list (such as `/a`
and `/a/`). -/
@[reducible] def AliasFree {α : Type} (regs : List (HttpMethod × String × α)) : Prop :=
  ∀ e₁ ∈ regs, ∀ e₂ ∈ regs, e₁.1 = e₂.1 → isLitPattern e₁.2.1 = true →
    isLitPattern e₂.2.1 = true → splitPath e₁.2.1 = splitPath e₂.2.1 → e₁.2.1 = e₂.2.1

/-- A pattern segment list matches a path segment list pointwise: parameter
segments match anything, static segments match their exact text (wildcards
excluded). -/
def patOk : List String → List String → Bool
  | [], [] => true
  | ps :: pr, s :: sr =>
    (if isParamSeg ps then true else !isWildSeg ps && ps == s) && patOk pr sr
  | _, _ => false

/-- The bindings a pointwise match produces: each parameter segment binds
the corresponding path segment under the parameter's name. -/
def patBindings : List String → List String → List (String × String)
  | ps :: pr, s :: sr =>
    if isParamSeg ps then (sliceOne ps, s) :: patBindings pr sr else patBindings pr sr
  | _, _ => []

/-- The parameter names of a pattern, in order. -/
def patNames (pat : List String) : List String :=
  (pat.filter (fun s => isParamSeg s)).map sliceOne

/-! ## Instrumented pipeline scenarios

The external state is a trace of markers (`List String`); every counter or
marker a test would place in hooks, middleware or handlers is an append to
this trace. -/

/-- Append a marker to the trace. -/
def note (msg : String) : St (List String) → St (List String) :=
  fun st => (st.1, st.2 ++ [msg])

/-- A transparent middleware recording a marker before and after invoking
its continuation and returning the continuation's result. -/
def markMw (n : String) : Middleware (List String) :=
  fun st next =>
    match next (note ("pre-" ++ n) st) with
    | (Except.error e, st2) => (Except.error e, st2)
    | (Except.ok r, st2) => (Except.ok r, note ("post-" ++ n) st2)

/-- A middleware that never invokes its continuation: it records a marker
and returns its own response. -/
def blockMw (r : Response) : Middleware (List String) :=
  fun st _ => (Except.ok (some r), note "block" st)

/-- A middleware that throws. -/
def throwMw (e : JsError) : Middleware (List String) :=
  fun st _ => (Except.error e, st)

/-- A handler recording the marker `H` and returning the string `ok`. -/
def markH : Handler (List String) :=
  fun st => (Except.ok (.str "ok"), note "H" st)

/-- A handler that throws. -/
def throwH (e : JsError) : Handler (List String) :=
  fun st => (Except.error e, st)

/-- A hook recording a marker and returning no response. -/
def markHook (n : String) : Hook (List String) :=
  fun st => (Except.ok none, note n st)

/-- A hook that short-circuits with a complete response. -/
def shortHook (r : Response) : Hook (List String) :=
  fun st => (Except.ok (some r), note "short" st)

/-- A hook that throws. -/
def throwHook (e : JsError) : Hook (List String) :=
  fun st => (Except.error e, st)

/-- The default error handler as configured (`config.onError` absent),
instrumented to record the marker `EH` on every invocation. -/
def ehDefault (dev : Bool) : ErrHandler (List String) :=
  fun e st => (defaultErrorHandler dev e st.1, note "EH" st)

/-- The `pre-` markers of a middleware name list. -/
def preMarks (names : List String) : List String := names.map (fun n => "pre-" ++ n)

/-- The `post-` markers of a middleware name list. -/
def postMarks (names : List String) : List String := names.map (fun n => "post-" ++ n)

/-- The response `markH` normalizes to on a fresh context. -/
def okResponse : Response :=
  ⟨some "ok", 200, [("Content-Type", "text/plain")]⟩

/-- An application with marker middlewares `names` around the marker
handler registered at `/`. -/
def appOnion (names : List String) : KyrinApp (List String) :=
  { router := Router.empty.on .GET "/" markH
    middlewares := names.map markMw
    errorHandler := ehDefault false }

/-- An application whose middleware chain contains a blocking middleware
between transparent ones. -/
def appBlock (names₁ : List String) (r : Response) (names₂ : List String) :
    KyrinApp (List String) :=
  { router := Router.empty.on .GET "/" markH
    middlewares := names₁.map markMw ++ blockMw r :: names₂.map markMw
    errorHandler := ehDefault false }

/-- An application whose request hooks contain a short-circuiting hook,
followed by further hooks, middleware, the handler and response hooks. -/
def appShort (names₁ : List String) (r : Response) (names₂ names₃ names₄ : List String) :
    KyrinApp (List String) :=
  { router := Router.empty.on .GET "/" markH
    middlewares := names₃.map markMw
    requestHooks := names₁.map markHook ++ shortHook r :: names₂.map markHook
    responseHooks := names₄.map markHook
    errorHandler := ehDefault false }

/-- An application whose handler throws. -/
def appThrowH (dev : Bool) (e : JsError) : KyrinApp (List String) :=
  { router := Router.empty.on .GET "/" (throwH e)
    errorHandler := ehDefault dev }

/-- An application whose single request hook throws. -/
def appThrowHook (dev : Bool) (e : JsError) : KyrinApp (List String) :=
  { router := Router.empty.on .GET "/" markH
    requestHooks := [throwHook e]
    errorHandler := ehDefault dev }

/-- An application whose single middleware throws. -/
def appThrowMw (dev : Bool) (e : JsError) : KyrinApp (List String) :=
  { router := Router.empty.on .GET "/" markH
    middlewares := [throwMw e]
    errorHandler := ehDefault dev }

/-! ## Lemmas about the JavaScript map embedding -/

@[simp] theorem mapGet_nil {κ β : Type} [DecidableEq κ] (key : κ) :
    mapGet ([] : List (κ × β)) key = none := rfl

@[simp] theorem mapGet_cons {κ β : Type} [DecidableEq κ] (k : κ) (v : β)
    (rest : List (κ × β)) (key : κ) :
    mapGet ((k, v) :: rest) key = if k = key then some v else mapGet rest key := rfl

theorem mapGet_mapSet_self {κ β : Type} [DecidableEq κ] (m : List (κ × β)) (k : κ) (v : β) :
    mapGet (mapSet m k v) k = some v := by
  induction m with
  | nil => simp [mapSet]
  | cons e rest ih =>
    obtain ⟨k', v'⟩ := e
    by_cases h : k' = k <;> simp [mapSet, h, ih]

theorem mapGet_mapSet_ne {κ β : Type} [DecidableEq κ] (m : List (κ × β)) (k k' : κ) (v : β)
    (h : k ≠ k') : mapGet (mapSet m k v) k' = mapGet m k' := by
  induction m with
  | nil => simp [mapSet, h]
  | cons e rest ih =>
    obtain ⟨k₀, v₀⟩ := e
    by_cases h₀ : k₀ = k
    · subst h₀
      simp [mapSet, h]
    · simp [mapSet, h₀, ih]

theorem mapSet_eq_append {κ β : Type} [DecidableEq κ] (m : List (κ × β)) (k : κ) (v : β)
    (h : mapGet m k = none) : mapSet m k v = m ++ [(k, v)] := by
  induction m with
  | nil => rfl
  | cons e rest ih =>
    obtain ⟨k₀, v₀⟩ := e
    by_cases h₀ : k₀ = k
    · simp [h₀] at h
    · simp only [mapGet_cons, if_neg h₀] at h
      simp [mapSet, h₀, ih h]

/-! ## Lemmas about the radix tree -/

@[simp] theorem RadixNode.children_mk {α : Type} (p : String)
    (c : List (String × RadixNode α)) (hd : Option α) (pn : Option String) (w : Bool)
    (pc wc : Option (RadixNode α)) : (RadixNode.mk p c hd pn w pc wc).children = c := rfl

@[simp] theorem RadixNode.handler_mk {α : Type} (p : String)
    (c : List (String × RadixNode α)) (hd : Option α) (pn : Option String) (w : Bool)
    (pc wc : Option (RadixNode α)) : (RadixNode.mk p c hd pn w pc wc).handler = hd := rfl

@[simp] theorem RadixNode.paramName_mk {α : Type} (p : String)
    (c : List (String × RadixNode α)) (hd : Option α) (pn : Option String) (w : Bool)
    (pc wc : Option (RadixNode α)) : (RadixNode.mk p c hd pn w pc wc).paramName = pn := rfl

@[simp] theorem RadixNode.paramChild_mk {α : Type} (p : String)
    (c : List (String × RadixNode α)) (hd : Option α) (pn : Option String) (w : Bool)
    (pc wc : Option (RadixNode α)) : (RadixNode.mk p c hd pn w pc wc).paramChild = pc := rfl

@[simp] theorem RadixNode.wildcardChild_mk {α : Type} (p : String)
    (c : List (String × RadixNode α)) (hd : Option α) (pn : Option String) (w : Bool)
    (pc wc : Option (RadixNode α)) : (RadixNode.mk p c hd pn w pc wc).wildcardChild = wc := rfl

/-- Unfolding of `search` on an empty segment list. -/
theorem search_nil {α : Type} (n : RadixNode α) (params : Params) :
    RadixNode.search n [] params =
      match n.handler with
      | some h => (some ⟨h, params⟩, params)
      | none =>
        match n.wildcardChild with
        | some w =>
          match w.handler with
          | some h => (some ⟨h, params⟩, params)
          | none => (none, params)
        | none => (none, params) := rfl

/-- Unfolding of `search` on a non-empty segment list: try the static
branch, then the parameter branch, then the wildcard child, threading the
parameter map through the failed attempts. -/
theorem search_cons {α : Type} (n : RadixNode α) (seg : String) (rest : List String)
    (params : Params) :
    RadixNode.search n (seg :: rest) params =
      match staticAttempt n seg rest params with
      | (some r, p) => (some r, p)
      | (none, p1) =>
        match paramAttempt n seg rest p1 with
        | (some r, p) => (some r, p)
        | (none, p4) =>
          match n.wildcardChild with
          | some w =>
            match w.handler with
            | some h => (some ⟨h, mapSet p4 "wildcard" (String.intercalate "/" (seg :: rest))⟩,
                         mapSet p4 "wildcard" (String.intercalate "/" (seg :: rest)))
            | none => (none, mapSet p4 "wildcard" (String.intercalate "/" (seg :: rest)))
          | none => (none, p4) := rfl

/-- Static priority: when the static child for the segment exists and its
recursive search succeeds, its result is the node's result. -/
theorem search_static_priority {α : Type} (n : RadixNode α) (seg : String)
    (rest : List String) (params p' : Params) (r : LookupResult α)
    (hs : staticAttempt n seg rest params = (some r, p')) :
    RadixNode.search n (seg :: rest) params = (some r, p') := by
  rw [search_cons, hs]

/-- Backtracking into the parameter child: when the static branch fails
(or is absent) and the parameter branch succeeds on the map the static
attempt left behind, the parameter result is the node's result. -/
theorem search_param_backtrack {α : Type} (n : RadixNode α) (seg : String)
    (rest : List String) (params p1 p' : Params) (r : LookupResult α)
    (hst : staticAttempt n seg rest params = (none, p1))
    (hp : paramAttempt n seg rest p1 = (some r, p')) :
    RadixNode.search n (seg :: rest) params = (some r, p') := by
  rw [search_cons, hst]
  dsimp only
  rw [hp]

/-- Falling through to the wildcard child: when both the static and the
parameter branches fail, the remaining segments are joined by `/` and
bound under `wildcard`, and the lookup immediately succeeds with the
wildcard child's handler or fails — the wildcard child's own subtree is
never consulted. -/
theorem search_wildcard_fallthrough {α : Type} (n : RadixNode α) (seg : String)
    (rest : List String) (params p1 p4 : Params) (w : RadixNode α)
    (hst : staticAttempt n seg rest params = (none, p1))
    (hp : paramAttempt n seg rest p1 = (none, p4))
    (hw : n.wildcardChild = some w) :
    RadixNode.search n (seg :: rest) params =
      (w.handler.map (fun h =>
          (⟨h, mapSet p4 "wildcard" (String.intercalate "/" (seg :: rest))⟩ : LookupResult α)),
        mapSet p4 "wildcard" (String.intercalate "/" (seg :: rest))) := by
  rw [search_cons, hst]
  dsimp only
  rw [hp]
  dsimp only
  rw [hw]
  dsimp only
  cases hwh : w.handler <;> rfl

/-- With zero remaining segments, a node without a handler succeeds through
its wildcard child's handler with the parameter map unchanged: no reserved
`wildcard` binding is added in this case. -/
theorem search_nil_wildcard {α : Type} (n : RadixNode α) (w : RadixNode α) (params : Params)
    (hh : n.handler = none) (hw : n.wildcardChild = some w) :
    RadixNode.search n [] params =
      (w.handler.map (fun h => (⟨h, params⟩ : LookupResult α)), params) := by
  rw [search_nil, hh, hw]
  dsimp only
  cases hwh : w.handler <;> rfl

/-- A handler reachable by a purely static descent is found by `search`
with the incoming parameter map unchanged (the static branch is tried
first at every node and succeeds all the way down). -/
theorem search_of_followStaticHandler {α : Type} (segs : List String) (n : RadixNode α)
    (params : Params) (h : α) (hf : followStaticHandler n segs = some h) :
    RadixNode.search n segs params = (some ⟨h, params⟩, params) := by
  induction segs generalizing n with
  | nil =>
    simp only [followStaticHandler, followStatic, Option.some_bind] at hf
    rw [search_nil, hf]
  | cons s rest ih =>
    rw [search_cons]
    simp only [followStaticHandler, followStatic] at hf
    match hc : mapGet n.children s with
    | some c =>
      rw [hc] at hf
      rw [show staticAttempt n s rest params = (some ⟨h, params⟩, params) by
        simp only [staticAttempt, hc]
        exact ih c hf]
    | none =>
      rw [hc] at hf
      simp at hf

theorem insertSegs_paramName {α : Type} (l : List String) (h : α) (n : RadixNode α) :
    (RadixNode.insertSegs l h n).paramName = n.paramName := by
  cases n with
  | mk p c hd pn w pc wc =>
    cases l with
    | nil => rfl
    | cons a as =>
      simp only [RadixNode.insertSegs]
      split
      · rfl
      · split
        · rfl
        · rfl

theorem search_insertSegs_patOk {α : Type} (pat : List String) (h : α) :
    ∀ (path : List String) (p0 : String) (pn0 : Option String) (w0 : Bool) (params0 : Params),
    patOk pat path = true → (patNames pat).Nodup →
    (∀ nm ∈ patNames pat, mapGet params0 nm = none) →
    RadixNode.search (RadixNode.insertSegs pat h (RadixNode.mk p0 [] none pn0 w0 none none))
        path params0 =
      (some ⟨h, params0 ++ patBindings pat path⟩, params0 ++ patBindings pat path) := by
  induction pat with
  | nil =>
    intro path p0 pn0 w0 params0 hok _ _
    cases path with
    | nil =>
      simp [RadixNode.insertSegs, search_nil, patBindings]
    | cons s sr => simp [patOk] at hok
  | cons ps pr ih =>
    intro path p0 pn0 w0 params0 hok hnd hfresh
    cases path with
    | nil => simp [patOk] at hok
    | cons s sr =>
      by_cases hps : isParamSeg ps = true
      · -- parameter segment
        have hok' : patOk pr sr = true := by
          simp [patOk, hps] at hok
          exact hok
        have hname : patNames (ps :: pr) = sliceOne ps :: patNames pr := by
          simp [patNames, hps]
        rw [hname] at hnd hfresh
        have hnd' := hnd.of_cons
        have hmem : sliceOne ps ∉ patNames pr := (List.nodup_cons.mp hnd).1
        have hfr0 : mapGet params0 (sliceOne ps) = none := hfresh _ (List.mem_cons_self _ _)
        -- the inserted node
        rw [show RadixNode.insertSegs (ps :: pr) h (RadixNode.mk p0 [] none pn0 w0 none none) =
            RadixNode.mk p0 [] none pn0 w0
              (some (RadixNode.insertSegs pr h
                (RadixNode.mk "" [] none (some (sliceOne ps)) false none none))) none by
          simp [RadixNode.insertSegs, hps]]
        rw [search_cons]
        rw [show staticAttempt (RadixNode.mk p0 [] none pn0 w0
              (some (RadixNode.insertSegs pr h
                (RadixNode.mk "" [] none (some (sliceOne ps)) false none none))) none)
              s sr params0 = (none, params0) by
          simp [staticAttempt]]
        dsimp only
        rw [show paramAttempt (RadixNode.mk p0 [] none pn0 w0
              (some (RadixNode.insertSegs pr h
                (RadixNode.mk "" [] none (some (sliceOne ps)) false none none))) none)
              s sr params0 =
            (some ⟨h, params0 ++ patBindings (ps :: pr) (s :: sr)⟩,
              params0 ++ patBindings (ps :: pr) (s :: sr)) by
          simp only [paramAttempt, RadixNode.paramChild_mk, insertSegs_paramName,
            RadixNode.paramName_mk, Option.getD_some]
          rw [mapSet_eq_append params0 (sliceOne ps) s hfr0]
          have hfresh' : ∀ nm ∈ patNames pr,
              mapGet (params0 ++ [(sliceOne ps, s)]) nm = none := by
            intro nm hm
            rw [← mapSet_eq_append params0 (sliceOne ps) s hfr0]
            rw [mapGet_mapSet_ne _ _ _ _ (fun he => hmem (by rw [he]; exact hm))]
            exact hfresh nm (List.mem_cons_of_mem _ hm)
          rw [ih sr "" (some (sliceOne ps)) false (params0 ++ [(sliceOne ps, s)]) hok' hnd' hfresh']
          simp [patBindings, hps, List.append_assoc]
        ]
      · -- static segment
        simp only [patOk, if_neg hps, Bool.and_eq_true, Bool.not_eq_true', beq_iff_eq] at hok
        have hwld : isWildSeg ps = false := hok.1.1
        have hpss : ps = s := hok.1.2
        have hok' : patOk pr sr = true := hok.2
        have hname : patNames (ps :: pr) = patNames pr := by
          simp [patNames, hps]
        rw [hname] at hnd hfresh
        rw [show RadixNode.insertSegs (ps :: pr) h (RadixNode.mk p0 [] none pn0 w0 none none) =
            RadixNode.mk p0 [(ps, RadixNode.insertSegs pr h (RadixNode.createNode ps))]
              none pn0 w0 none none by
          simp [RadixNode.insertSegs, hps, hwld, mapSet, RadixNode.createNode]]
        rw [search_cons]
        rw [show staticAttempt (RadixNode.mk p0
              [(ps, RadixNode.insertSegs pr h (RadixNode.createNode ps))] none pn0 w0 none none)
              s sr params0 =
            (some ⟨h, params0 ++ patBindings (ps :: pr) (s :: sr)⟩,
              params0 ++ patBindings (ps :: pr) (s :: sr)) by
          simp only [staticAttempt, RadixNode.children_mk, mapGet_cons, if_pos hpss,
            mapGet_nil]
          rw [show RadixNode.createNode (α := α) ps = RadixNode.mk ps [] none none false none none
            from rfl]
          rw [ih sr ps none false params0 hok' hnd hfresh]
          simp [patBindings, hps]
        ]

/-! ## Segment-level consequences of the literal-pattern test -/

theorem splitChars_ne_nil (cs : List Char) : splitChars cs ≠ [] := by
  cases cs with
  | nil => simp [splitChars]
  | cons c rest =>
    simp only [splitChars]
    split
    · simp
    · split
      · simp
      · simp

theorem mem_of_mem_splitChars {cs : List Char} {seg : List Char} {c : Char}
    (hs : seg ∈ splitChars cs) (hc : c ∈ seg) : c ∈ cs := by
  induction cs generalizing seg with
  | nil =>
    simp [splitChars] at hs
    subst hs
    simp at hc
  | cons a rest ih =>
    simp only [splitChars] at hs
    by_cases ha : a = '/'
    · rw [if_pos ha] at hs
      rcases List.mem_cons.mp hs with h | h
      · subst h; simp at hc
      · exact List.mem_cons_of_mem _ (ih h hc)
    · rw [if_neg ha] at hs
      rcases hrec : splitChars rest with _ | ⟨s, ss⟩
      · exact absurd hrec (splitChars_ne_nil rest)
      · rw [hrec] at hs
        rcases List.mem_cons.mp hs with h | h
        · subst h
          rcases List.mem_cons.mp hc with h' | h'
          · exact h' ▸ List.mem_cons_self _ _
          · exact List.mem_cons_of_mem _ (ih (hrec ▸ List.mem_cons_self s ss) h')
        · exact List.mem_cons_of_mem _ (ih (hrec ▸ List.mem_cons_of_mem s h) hc)

theorem exists_mem_splitChars {cs : List Char} {c : Char} (hc : c ∈ cs) (hne : c ≠ '/') :
    ∃ seg ∈ splitChars cs, c ∈ seg := by
  induction cs with
  | nil => simp at hc
  | cons a rest ih =>
    simp only [splitChars]
    rcases List.mem_cons.mp hc with h | h
    · subst h
      rw [if_neg hne]
      rcases hrec : splitChars rest with _ | ⟨s, ss⟩
      · exact absurd hrec (splitChars_ne_nil rest)
      · exact ⟨c :: s, List.mem_cons_self _ _, List.mem_cons_self _ _⟩
    · obtain ⟨seg, hseg, hcseg⟩ := ih h
      by_cases ha : a = '/'
      · rw [if_pos ha]
        exact ⟨seg, List.mem_cons_of_mem _ hseg, hcseg⟩
      · rw [if_neg ha]
        rcases hrec : splitChars rest with _ | ⟨s, ss⟩
        · exact absurd hrec (splitChars_ne_nil rest)
        · rw [hrec] at hseg
          rcases List.mem_cons.mp hseg with h' | h'
          · exact ⟨a :: seg, by rw [h']; exact List.mem_cons_self _ _,
              List.mem_cons_of_mem _ hcseg⟩
          · exact ⟨seg, List.mem_cons_of_mem _ h', hcseg⟩

theorem mem_of_mem_dropWhile {p : Char → Bool} {l : List Char} {c : Char}
    (h : c ∈ l.dropWhile p) : c ∈ l :=
  (List.dropWhile_sublist p).subset h

theorem mem_dropWhile_of_mem {p : Char → Bool} {l : List Char} {c : Char}
    (h : c ∈ l) (hp : p c = false) : c ∈ l.dropWhile p := by
  rcases List.mem_append.mp (by rw [List.takeWhile_append_dropWhile]; exact h :
      c ∈ l.takeWhile p ++ l.dropWhile p) with h' | h'
  · exact absurd (List.mem_takeWhile_imp h') (by simp [hp])
  · exact h'

theorem mem_of_mem_stripSlashes {cs : List Char} {c : Char} (h : c ∈ stripSlashes cs) :
    c ∈ cs := by
  unfold stripSlashes at h
  rw [List.mem_reverse] at h
  have := mem_of_mem_dropWhile h
  rw [List.mem_reverse] at this
  exact mem_of_mem_dropWhile this

theorem mem_stripSlashes_of_mem {cs : List Char} {c : Char} (h : c ∈ cs) (hne : c ≠ '/') :
    c ∈ stripSlashes cs := by
  unfold stripSlashes
  rw [List.mem_reverse]
  refine mem_dropWhile_of_mem ?_ (by simp [hne])
  rw [List.mem_reverse]
  exact mem_dropWhile_of_mem h (by simp [hne])

theorem mem_data_of_mem_splitPath {q : String} {s : String} {c : Char}
    (hs : s ∈ splitPath q) (hc : c ∈ s.data) : c ∈ q.data := by
  simp only [splitPath, List.mem_map] at hs
  obtain ⟨l, hl, rfl⟩ := hs
  exact mem_of_mem_stripSlashes (mem_of_mem_splitChars hl hc)

theorem exists_seg_of_includesChar {q : String} {c : Char}
    (h : includesChar q c = true) (hne : c ≠ '/') : ∃ s ∈ splitPath q, c ∈ s.data := by
  have hmem : c ∈ q.data := by
    simpa [includesChar] using h
  obtain ⟨seg, hseg, hcseg⟩ := exists_mem_splitChars (mem_stripSlashes_of_mem hmem hne) hne
  exact ⟨String.mk seg, by simp [splitPath]; exact ⟨seg, hseg, rfl⟩, hcseg⟩

theorem includesChar_of_mem_seg {q : String} {s : String} {c : Char}
    (hs : s ∈ splitPath q) (hc : c ∈ s.data) : includesChar q c = true := by
  simp [includesChar]
  exact mem_data_of_mem_splitPath hs hc

theorem allTreeLit_of_isLitPattern {q : String} (h : isLitPattern q = true) :
    allTreeLit (splitPath q) = true := by
  simp only [isLitPattern, Bool.and_eq_true, Bool.not_eq_true'] at h
  simp only [allTreeLit, List.all_eq_true, Bool.and_eq_true, Bool.not_eq_true']
  intro s hs
  constructor
  · by_contra hp
    rw [Bool.not_eq_false] at hp
    have hhead : s.data.head? = some ':' := by
      simpa [isParamSeg] using hp
    have hmem : (':' : Char) ∈ s.data := by
      cases hd : s.data with
      | nil => rw [hd] at hhead; simp at hhead
      | cons a as =>
        rw [hd] at hhead
        simp at hhead
        rw [hhead]
        exact List.mem_cons_self _ _
    exact absurd (includesChar_of_mem_seg hs hmem) (by simp [h.1])
  · by_contra hw
    rw [Bool.not_eq_false] at hw
    have hstar : s = "*" := by simpa [isWildSeg] using hw
    have hmem : ('*' : Char) ∈ s.data := by
      rw [hstar]
      decide
    exact absurd (includesChar_of_mem_seg hs hmem) (by simp [h.2])


theorem followStaticHandler_nil {α : Type} (n : RadixNode α) :
    followStaticHandler n [] = n.handler := by
  simp [followStaticHandler, followStatic]

theorem followStaticHandler_cons {α : Type} (n : RadixNode α) (s : String)
    (rest : List String) :
    followStaticHandler n (s :: rest) =
      match mapGet n.children s with
      | some c => followStaticHandler c rest
      | none => none := by
  simp only [followStaticHandler, followStatic]
  cases mapGet n.children s <;> simp

theorem followStaticHandler_createNode {α : Type} (q : String) (segs : List String) :
    followStaticHandler (RadixNode.createNode (α := α) q) segs = none := by
  cases segs with
  | nil => simp [followStaticHandler_nil, RadixNode.createNode]
  | cons s rest =>
    rw [followStaticHandler_cons]
    simp [RadixNode.createNode]

theorem followStaticHandler_insertSegs {α : Type} (qsegs : List String) (q0 : α)
    (n : RadixNode α) (segs : List String) :
    followStaticHandler (RadixNode.insertSegs qsegs q0 n) segs =
      if allTreeLit qsegs = true ∧ segs = qsegs then some q0
      else followStaticHandler n segs := by
  induction qsegs generalizing n segs with
  | nil =>
    cases n with
    | mk p c hd pn w pc wc =>
      cases segs with
      | nil =>
        simp [RadixNode.insertSegs, followStaticHandler_nil, allTreeLit]
      | cons s rest =>
        rw [if_neg (by rintro ⟨_, h⟩; cases h)]
        rw [followStaticHandler_cons, followStaticHandler_cons]
        rfl
  | cons q qr ih =>
    cases n with
    | mk p c hd pn w pc wc =>
      by_cases hq : isParamSeg q = true
      · rw [if_neg (by
          rintro ⟨hall, _⟩
          simp [allTreeLit, hq] at hall)]
        rw [show RadixNode.insertSegs (q :: qr) q0 (RadixNode.mk p c hd pn w pc wc) =
            RadixNode.mk p c hd pn w
              (some (RadixNode.insertSegs qr q0 (match pc with
                | some pcn => pcn
                | none => RadixNode.mk "" [] none (some (sliceOne q)) false none none))) wc by
          simp [RadixNode.insertSegs, hq]]
        cases segs with
        | nil =>
          rw [followStaticHandler_nil, followStaticHandler_nil]
          rfl
        | cons s rest =>
          rw [followStaticHandler_cons, followStaticHandler_cons]
          rfl
      · by_cases hwl : isWildSeg q = true
        · rw [if_neg (by
            rintro ⟨hall, _⟩
            simp [allTreeLit, hwl] at hall)]
          rw [show RadixNode.insertSegs (q :: qr) q0 (RadixNode.mk p c hd pn w pc wc) =
              RadixNode.mk p c hd pn w pc
                (some (RadixNode.insertSegs qr q0 (match wc with
                  | some wcn => wcn
                  | none => RadixNode.mk "" [] none none true none none))) by
            simp [RadixNode.insertSegs, hq, hwl]]
          cases segs with
          | nil =>
          rw [followStaticHandler_nil, followStaticHandler_nil]
          rfl
          | cons s rest =>
            rw [followStaticHandler_cons, followStaticHandler_cons]
            rfl
        · -- static pattern segment
          rw [show RadixNode.insertSegs (q :: qr) q0 (RadixNode.mk p c hd pn w pc wc) =
              RadixNode.mk p (mapSet c q (RadixNode.insertSegs qr q0 (match mapGet c q with
                | some ch => ch
                | none => RadixNode.createNode q))) hd pn w pc wc by
            simp [RadixNode.insertSegs, hq, hwl]]
          have hlit : allTreeLit (q :: qr) = allTreeLit qr := by
            simp [allTreeLit, hq, hwl]
          cases segs with
          | nil =>
            rw [if_neg (by rintro ⟨_, h⟩; cases h)]
            rw [followStaticHandler_nil, followStaticHandler_nil]
            rfl
          | cons s rest =>
            by_cases hqs : q = s
            · subst hqs
              rw [followStaticHandler_cons, followStaticHandler_cons]
              simp only [RadixNode.children_mk, mapGet_mapSet_self]
              cases hc : mapGet c q with
              | some oldc =>
                rw [ih]
                rw [hlit]
                have : (rest = qr) = (q :: rest = q :: qr) := by
                  simp
                by_cases hcond : allTreeLit qr = true ∧ rest = qr
                · rw [if_pos hcond, if_pos ⟨hcond.1, by rw [hcond.2]⟩]
                · rw [if_neg hcond, if_neg (by
                    rintro ⟨h1, h2⟩
                    exact hcond ⟨h1, by injection h2⟩)]
              | none =>
                rw [ih]
                rw [hlit, followStaticHandler_createNode]
                by_cases hcond : allTreeLit qr = true ∧ rest = qr
                · rw [if_pos hcond, if_pos ⟨hcond.1, by rw [hcond.2]⟩]
                · rw [if_neg hcond, if_neg (by
                    rintro ⟨h1, h2⟩
                    exact hcond ⟨h1, by injection h2⟩)]
            · rw [if_neg (by
                rintro ⟨_, h2⟩
                injection h2 with h2a _
                exact hqs h2a.symm)]
              rw [followStaticHandler_cons, followStaticHandler_cons]
              simp only [RadixNode.children_mk]
              rw [mapGet_mapSet_ne _ _ _ _ hqs]

/-! ## Router registration step lemmas -/

theorem getStaticRoutes_on {α : Type} (r : Router α) (m' m : HttpMethod) (q : String)
    (h' : α) :
    (Router.on r m' q h').getStaticRoutes m =
      if isLitPattern q = true ∧ m' = m then mapSet (r.getStaticRoutes m') q h'
      else r.getStaticRoutes m := by
  unfold Router.on
  by_cases hl : isLitPattern q
  · simp only [hl, if_true]
    by_cases hm : m' = m
    · subst hm
      simp [Router.getStaticRoutes, mapGet_mapSet_self, hl]
    · simp [Router.getStaticRoutes, mapGet_mapSet_ne _ _ _ _ hm, hl, hm]
  · simp [Router.getStaticRoutes, hl]



theorem cacheGet_on {α : Type} (r : Router α) (m' m : HttpMethod) (q p : String) (h' : α) :
    cacheGet (Router.on r m' q h') m p =
      if isLitPattern q = true ∧ m' = m ∧ q = p then some h'
      else cacheGet r m p := by
  unfold cacheGet
  rw [getStaticRoutes_on]
  by_cases hl : isLitPattern q
  · by_cases hm : m' = m
    · subst hm
      rw [if_pos ⟨hl, rfl⟩]
      by_cases hqp : q = p
      · subst hqp
        rw [if_pos ⟨hl, rfl, rfl⟩, mapGet_mapSet_self]
      · rw [if_neg (by rintro ⟨_, _, h⟩; exact hqp h), mapGet_mapSet_ne _ _ _ _ hqp]
    · rw [if_neg (by rintro ⟨_, h⟩; exact hm h), if_neg (by rintro ⟨_, h, _⟩; exact hm h)]
  · rw [if_neg (by rintro ⟨h, _⟩; exact hl h), if_neg (by rintro ⟨h, _⟩; exact hl h)]



theorem getTree_on {α : Type} (r : Router α) (m' m : HttpMethod) (q : String) (h' : α) :
    (Router.on r m' q h').getTree m =
      if m' = m then (r.getTree m').insert q h' else r.getTree m := by
  unfold Router.on
  by_cases hm : m' = m
  · subst hm
    by_cases hl : isLitPattern q <;>
      simp [Router.getTree, mapGet_mapSet_self, hl]
  · by_cases hl : isLitPattern q <;>
      simp [Router.getTree, mapGet_mapSet_ne _ _ _ _ hm, hl, hm]

theorem cacheGet_empty {α : Type} (m : HttpMethod) (p : String) :
    cacheGet (Router.empty : Router α) m p = none := by
  simp [cacheGet, Router.getStaticRoutes, Router.empty]

theorem getTree_empty {α : Type} (m : HttpMethod) :
    (Router.empty : Router α).getTree m = RadixTree.empty := by
  simp [Router.getTree, Router.empty]

theorem regAll_append {α : Type} (regs : List (HttpMethod × String × α))
    (x : HttpMethod × String × α) :
    regAll (regs ++ [x]) = (regAll regs).on x.1 x.2.1 x.2.2 := by
  simp [regAll, List.foldl_append]

/-! ## The static cache against the tree -/

theorem isLitPattern_false_cases {q : String} (h : ¬ isLitPattern q = true) :
    includesChar q ':' = true ∨ includesChar q '*' = true := by
  by_contra hcon
  push_neg at hcon
  exact h (by
    simp only [isLitPattern, Bool.and_eq_true, Bool.not_eq_true']
    exact ⟨Bool.eq_false_iff.mpr hcon.1, Bool.eq_false_iff.mpr hcon.2⟩)

theorem isLitPattern_no_colon {p : String} (h : isLitPattern p = true) :
    includesChar p ':' = false := by
  simp only [isLitPattern, Bool.and_eq_true, Bool.not_eq_true'] at h
  exact h.1

theorem isLitPattern_no_star {p : String} (h : isLitPattern p = true) :
    includesChar p '*' = false := by
  simp only [isLitPattern, Bool.and_eq_true, Bool.not_eq_true'] at h
  exact h.2

theorem root_insert {α : Type} (t : RadixTree α) (q : String) (h : α) :
    (t.insert q h).root = RadixNode.insertSegs (splitPath q) h t.root := rfl

theorem cache_tree_aux {α : Type} :
    ∀ (rest done : List (HttpMethod × String × α)),
    AliasFree (done ++ rest) →
    (∀ m p (h : α), cacheGet (regAll done) m p = some h →
       followStaticHandler ((regAll done).getTree m).root (splitPath p) = some h) →
    (∀ m p (h : α), cacheGet (regAll done) m p = some h →
       ∃ h₀, (m, p, h₀) ∈ done ∧ isLitPattern p = true) →
    (∀ m p (h : α), cacheGet (regAll (done ++ rest)) m p = some h →
       followStaticHandler ((regAll (done ++ rest)).getTree m).root (splitPath p) = some h) := by
  intro rest
  induction rest with
  | nil =>
    intro done hAF inv1 _
    simpa using inv1
  | cons x rest' ih =>
    intro done hAF inv1 dom
    obtain ⟨mx, qx, hx⟩ := x
    have hx_mem : (mx, qx, hx) ∈ done ++ (mx, qx, hx) :: rest' :=
      List.mem_append_right _ (List.mem_cons_self _ _)
    have hassoc : done ++ (mx, qx, hx) :: rest' = (done ++ [(mx, qx, hx)]) ++ rest' := by
      simp
    rw [hassoc]
    refine ih (done ++ [(mx, qx, hx)]) (by rw [← hassoc]; exact hAF) ?_ ?_
    · -- the invariant survives one registration
      intro m p h hc
      rw [show regAll (done ++ [(mx, qx, hx)]) = (regAll done).on mx qx hx from
        regAll_append done (mx, qx, hx)] at hc ⊢
      rw [cacheGet_on] at hc
      rw [getTree_on]
      by_cases hcond : isLitPattern qx = true ∧ mx = m ∧ qx = p
      · rw [if_pos hcond] at hc
        obtain ⟨hlq, hm, hqp⟩ := hcond
        cases hc
        subst hm
        subst hqp
        rw [if_pos rfl, root_insert, followStaticHandler_insertSegs,
          if_pos ⟨allTreeLit_of_isLitPattern hlq, rfl⟩]
      · rw [if_neg hcond] at hc
        by_cases hm : mx = m
        · subst hm
          rw [if_pos rfl, root_insert, followStaticHandler_insertSegs]
          by_cases hfcond : allTreeLit (splitPath qx) = true ∧ splitPath p = splitPath qx
          · exfalso
            obtain ⟨h₀, hmem, hlitp⟩ := dom mx p h hc
            by_cases hlq : isLitPattern qx = true
            · have hpq : p = qx :=
                hAF (mx, p, h₀) (List.mem_append_left _ hmem) (mx, qx, hx) hx_mem rfl hlitp hlq
                  hfcond.2
              exact hcond ⟨hlq, rfl, hpq.symm⟩
            · rcases isLitPattern_false_cases hlq with hch | hch
              · obtain ⟨s, hsmem, hcs⟩ := exists_seg_of_includesChar hch (by decide)
                rw [← hfcond.2] at hsmem
                have h1 := includesChar_of_mem_seg hsmem hcs
                have h2 := isLitPattern_no_colon hlitp
                rw [h1] at h2
                cases h2
              · obtain ⟨s, hsmem, hcs⟩ := exists_seg_of_includesChar hch (by decide)
                rw [← hfcond.2] at hsmem
                have h1 := includesChar_of_mem_seg hsmem hcs
                have h2 := isLitPattern_no_star hlitp
                rw [h1] at h2
                cases h2
          · rw [if_neg hfcond]
            exact inv1 mx p h hc
        · rw [if_neg hm]
          exact inv1 m p h hc
    · -- the cache domain stays inside the registered literal patterns
      intro m p h hc
      rw [show regAll (done ++ [(mx, qx, hx)]) = (regAll done).on mx qx hx from
        regAll_append done (mx, qx, hx)] at hc
      rw [cacheGet_on] at hc
      by_cases hcond : isLitPattern qx = true ∧ mx = m ∧ qx = p
      · obtain ⟨hlq, hm, hqp⟩ := hcond
        subst hm
        subst hqp
        exact ⟨hx, List.mem_append_right _ (List.mem_cons_self _ _), hlq⟩
      · rw [if_neg hcond] at hc
        obtain ⟨h₀, hmem, hlitp⟩ := dom m p h hc
        exact ⟨h₀, List.mem_append_left _ hmem, hlitp⟩


theorem cache_agrees_followStatic {α : Type} (regs : List (HttpMethod × String × α))
    (hAF : AliasFree regs) (m : HttpMethod) (p : String) (h : α)
    (hc : cacheGet (regAll regs) m p = some h) :
    followStaticHandler ((regAll regs).getTree m).root (splitPath p) = some h := by
  refine cache_tree_aux regs [] ?_ ?_ ?_ m p h ?_
  · exact hAF
  · intro m p h hc
    rw [show regAll ([] : List (HttpMethod × String × α)) = Router.empty from rfl,
      cacheGet_empty] at hc
    cases hc
  · intro m p h hc
    rw [show regAll ([] : List (HttpMethod × String × α)) = Router.empty from rfl,
      cacheGet_empty] at hc
    cases hc
  · exact hc

theorem cache_agrees_lookup {α : Type} (regs : List (HttpMethod × String × α))
    (hAF : AliasFree regs) (m : HttpMethod) (p : String) (h : α)
    (hc : cacheGet (regAll regs) m p = some h) :
    ((regAll regs).getTree m).lookup p = some ⟨h, []⟩ := by
  unfold RadixTree.lookup
  rw [search_of_followStaticHandler _ _ _ _ (cache_agrees_followStatic regs hAF m p h hc)]

theorem match_of_cacheGet {α : Type} (r : Router α) (m : HttpMethod) (p : String) (h : α)
    (hc : cacheGet r m p = some h) : Router.match r m p = some ⟨h, []⟩ := by
  unfold Router.match
  unfold cacheGet at hc
  rw [hc]

theorem match_last_literal {α : Type} (regs : List (HttpMethod × String × α))
    (m : HttpMethod) (p : String) (h : α) (hlit : isLitPattern p = true) :
    Router.match (regAll (regs ++ [(m, p, h)])) m p = some ⟨h, []⟩ := by
  refine match_of_cacheGet _ _ _ _ ?_
  rw [regAll_append, cacheGet_on, if_pos ⟨hlit, rfl, rfl⟩]

/-! ## Pipeline execution lemmas -/

theorem terminalNext_markH (c : Context) (t : List String) :
    terminalNext markH (c, t) =
      (Except.ok (some (toResponse (.str "ok") c)), (c, t ++ ["H"])) := rfl

theorem compose_markMw (names : List String) (c : Context) (t : List String) :
    compose (names.map markMw) (c, t) (terminalNext markH) =
      (Except.ok (some (toResponse (.str "ok") c)),
        (c, t ++ preMarks names ++ ["H"] ++ (postMarks names).reverse)) := by
  induction names generalizing t with
  | nil =>
    rw [show (([] : List String).map markMw) = [] from rfl]
    rw [show compose ([] : List (Middleware (List String))) (c, t) (terminalNext markH) =
      terminalNext markH (c, t) from rfl]
    rw [terminalNext_markH]
    simp [preMarks, postMarks]
  | cons n ns ih =>
    rw [List.map_cons]
    rw [show compose (markMw n :: ns.map markMw) (c, t) (terminalNext markH) =
      markMw n (c, t) (fun st2 => compose (ns.map markMw) st2 (terminalNext markH)) from rfl]
    rw [show markMw n (c, t) (fun st2 => compose (ns.map markMw) st2 (terminalNext markH)) =
      (match compose (ns.map markMw) (c, t ++ ["pre-" ++ n]) (terminalNext markH) with
       | (Except.error e, st2) => (Except.error e, st2)
       | (Except.ok r, st2) => (Except.ok r, note ("post-" ++ n) st2)) from rfl]
    rw [ih (t ++ ["pre-" ++ n])]
    dsimp only [note]
    simp [preMarks, postMarks, List.append_assoc]


theorem compose_blockMw (names₁ : List String) (r : Response) (ms₂ : List (Middleware (List String)))
    (c : Context) (t : List String) (next : Next (List String)) :
    compose (names₁.map markMw ++ blockMw r :: ms₂) (c, t) next =
      (Except.ok (some r), (c, t ++ preMarks names₁ ++ ["block"] ++ (postMarks names₁).reverse)) := by
  induction names₁ generalizing t with
  | nil =>
    rw [show (([] : List String).map markMw ++ blockMw r :: ms₂) = blockMw r :: ms₂ by simp]
    rw [show compose (blockMw r :: ms₂) (c, t) next =
      blockMw r (c, t) (fun st2 => compose ms₂ st2 next) from rfl]
    rw [show blockMw r (c, t) (fun st2 => compose ms₂ st2 next) =
      (Except.ok (some r), (c, t ++ ["block"])) from rfl]
    simp [preMarks, postMarks]
  | cons n ns ih =>
    rw [List.map_cons, List.cons_append]
    rw [show compose (markMw n :: (ns.map markMw ++ blockMw r :: ms₂)) (c, t) next =
      markMw n (c, t) (fun st2 => compose (ns.map markMw ++ blockMw r :: ms₂) st2 next)
      from rfl]
    rw [show markMw n (c, t)
        (fun st2 => compose (ns.map markMw ++ blockMw r :: ms₂) st2 next) =
      (match compose (ns.map markMw ++ blockMw r :: ms₂) (c, t ++ ["pre-" ++ n]) next with
       | (Except.error e, st2) => (Except.error e, st2)
       | (Except.ok rr, st2) => (Except.ok rr, note ("post-" ++ n) st2)) from rfl]
    rw [ih (t ++ ["pre-" ++ n])]
    dsimp only [note]
    simp [preMarks, postMarks, List.append_assoc]

theorem runRequestHooks_marks (names : List String) (rest : List (Hook (List String)))
    (c : Context) (t : List String) :
    runRequestHooks (names.map markHook ++ rest) (c, t) =
      runRequestHooks rest (c, t ++ names) := by
  induction names generalizing t with
  | nil => simp
  | cons n ns ih =>
    rw [List.map_cons, List.cons_append]
    rw [show runRequestHooks (markHook n :: (ns.map markHook ++ rest)) (c, t) =
      runRequestHooks (ns.map markHook ++ rest) (c, t ++ [n]) from rfl]
    rw [ih (t ++ [n])]
    simp [List.append_assoc]

theorem runRequestHooks_short (names₁ : List String) (r : Response)
    (rest : List (Hook (List String))) (c : Context) (t : List String) :
    runRequestHooks (names₁.map markHook ++ shortHook r :: rest) (c, t) =
      (Except.ok (some r), (c, t ++ names₁ ++ ["short"])) := by
  rw [runRequestHooks_marks]
  rw [show runRequestHooks (shortHook r :: rest) (c, t ++ names₁) =
    (Except.ok (some r), (c, (t ++ names₁) ++ ["short"])) from rfl]


theorem handleRequest_no_match {σ : Type} (app : KyrinApp σ) (req : Request) (s : σ)
    (h : app.router.match req.method req.path = none) :
    handleRequest app req s = (⟨some "Not Found", 404, []⟩, s) := by
  unfold handleRequest
  rw [h]

theorem handleRequest_onion (names : List String) (s0 : List String) :
    handleRequest (appOnion names) ⟨.GET, "/"⟩ s0 =
      (okResponse, s0 ++ preMarks names ++ ["H"] ++ (postMarks names).reverse) := by
  cases names with
  | nil =>
    have h : handleRequest (appOnion []) ⟨.GET, "/"⟩ s0 = (okResponse, s0 ++ ["H"]) := rfl
    rw [h]
    simp [preMarks, postMarks]
  | cons n ns =>
    unfold handleRequest
    rw [show (appOnion (n :: ns)).router.match HttpMethod.GET "/" = some ⟨markH, []⟩ from rfl]
    dsimp only
    rw [show runRequestHooks (appOnion (n :: ns)).requestHooks ({ params := [] }, s0) =
      (Except.ok none, ({ params := [] }, s0)) from rfl]
    dsimp only
    rw [show (appOnion (n :: ns)).middlewares = (n :: ns).map markMw from rfl]
    rw [show ((n :: ns).map markMw).isEmpty = false from rfl]
    simp only [Bool.false_eq_true, if_false]
    rw [compose_markMw (n :: ns) { params := [] } s0]
    rfl


theorem handleRequest_block (names₁ : List String) (r : Response) (names₂ : List String)
    (s0 : List String) :
    handleRequest (appBlock names₁ r names₂) ⟨.GET, "/"⟩ s0 =
      (r, s0 ++ preMarks names₁ ++ ["block"] ++ (postMarks names₁).reverse) := by
  unfold handleRequest
  rw [show (appBlock names₁ r names₂).router.match HttpMethod.GET "/" = some ⟨markH, []⟩
    from rfl]
  dsimp only
  rw [show runRequestHooks (appBlock names₁ r names₂).requestHooks ({ params := [] }, s0) =
    (Except.ok none, ({ params := [] }, s0)) from rfl]
  dsimp only
  rw [show (appBlock names₁ r names₂).middlewares =
    names₁.map markMw ++ blockMw r :: names₂.map markMw from rfl]
  rw [show (names₁.map markMw ++ blockMw r :: names₂.map markMw).isEmpty = false by
    cases names₁ <;> rfl]
  simp only [Bool.false_eq_true, if_false]
  rw [compose_blockMw names₁ r (names₂.map markMw) { params := [] } s0
    (terminalNext markH)]
  rfl

theorem handleRequest_short (names₁ : List String) (r : Response)
    (names₂ names₃ names₄ : List String) (s0 : List String) :
    handleRequest (appShort names₁ r names₂ names₃ names₄) ⟨.GET, "/"⟩ s0 =
      (r, s0 ++ names₁ ++ ["short"]) := by
  unfold handleRequest
  rw [show (appShort names₁ r names₂ names₃ names₄).router.match HttpMethod.GET "/" =
    some ⟨markH, []⟩ from rfl]
  dsimp only
  rw [show (appShort names₁ r names₂ names₃ names₄).requestHooks =
    names₁.map markHook ++ shortHook r :: names₂.map markHook from rfl]
  rw [runRequestHooks_short names₁ r (names₂.map markHook) { params := [] } s0]

theorem handleRequest_throwH (dev : Bool) (e : JsError) (s0 : List String) :
    handleRequest (appThrowH dev e) ⟨.GET, "/"⟩ s0 =
      (defaultErrorHandler dev e { params := [] }, s0 ++ ["EH"]) := rfl

theorem handleRequest_throwHook (dev : Bool) (e : JsError) (s0 : List String) :
    handleRequest (appThrowHook dev e) ⟨.GET, "/"⟩ s0 =
      (defaultErrorHandler dev e { params := [] }, s0 ++ ["EH"]) := rfl

theorem handleRequest_throwMw (dev : Bool) (e : JsError) (s0 : List String) :
    handleRequest (appThrowMw dev e) ⟨.GET, "/"⟩ s0 =
      (defaultErrorHandler dev e { params := [] }, s0 ++ ["EH"]) := rfl


/-! ## The claims -/

/-- C1: at each tree node the lookup tries children in strict priority
order — static child, then parameter child, then wildcard child — with
backtracking into the lower-priority alternative when the higher-priority
branch fails; a literal route beats a parameter route for the same
segment, a parameter route beats a wildcard for a single segment, and a
multi-segment path falls through to the wildcard. -/
theorem claim_C1_lookup_priority :
    (∀ (n : RadixNode Nat) (seg : String) (rest : List String) (params p' : Params)
       (r : LookupResult Nat),
       staticAttempt n seg rest params = (some r, p') →
       RadixNode.search n (seg :: rest) params = (some r, p')) ∧
    (∀ (n : RadixNode Nat) (seg : String) (rest : List String) (params p1 p' : Params)
       (r : LookupResult Nat),
       staticAttempt n seg rest params = (none, p1) →
       paramAttempt n seg rest p1 = (some r, p') →
       RadixNode.search n (seg :: rest) params = (some r, p')) ∧
    (∀ (n : RadixNode Nat) (seg : String) (rest : List String) (params p1 p4 : Params)
       (w : RadixNode Nat),
       staticAttempt n seg rest params = (none, p1) →
       paramAttempt n seg rest p1 = (none, p4) →
       n.wildcardChild = some w →
       RadixNode.search n (seg :: rest) params =
         (w.handler.map (fun h =>
             (⟨h, mapSet p4 "wildcard" (String.intercalate "/" (seg :: rest))⟩ :
               LookupResult Nat)),
           mapSet p4 "wildcard" (String.intercalate "/" (seg :: rest)))) ∧
    ((RadixTree.empty.insert "/users/:id" 1 |>.insert "/users/me" 2).lookup "/users/me" =
      some ⟨2, []⟩) ∧
    ((RadixTree.empty.insert "/files/:name" 1 |>.insert "/files/*" 2).lookup
      "/files/report.pdf" = some ⟨1, [("name", "report.pdf")]⟩) ∧
    ((RadixTree.empty.insert "/files/:name" 1 |>.insert "/files/*" 2).lookup "/files/a/b" =
      some ⟨2, [("wildcard", "a/b")]⟩) ∧
    ((RadixTree.empty.insert "/a/x/c" 1 |>.insert "/a/:p/d" 2).lookup "/a/x/d" =
      some ⟨2, [("p", "x")]⟩) :=
  ⟨fun n seg rest params p' r hs => search_static_priority n seg rest params p' r hs,
   fun n seg rest params p1 p' r hst hp => search_param_backtrack n seg rest params p1 p' r hst hp,
   fun n seg rest params p1 p4 w hst hp hw =>
     search_wildcard_fallthrough n seg rest params p1 p4 w hst hp hw,
   by decide, by decide, by decide, by decide⟩

/-- Witness for C1: a node with a handlerless static subtree for `a`, a
parameter child bound to `x`, and no wildcard; the lookup of `a`
backtracks out of the static attempt and succeeds through the parameter
child with the binding `x := a`. -/
theorem claim_C1_lookup_priority_witness :
    RadixNode.search
      (RadixNode.mk "" [("a", RadixNode.mk "a" [] none none false none none)] none none false
        (some (RadixNode.mk "" [] (some 9) (some "x") false none none)) none)
      ["a"] [] = (some ⟨9, [("x", "a")]⟩, [("x", "a")]) := by
  exact claim_C1_lookup_priority.2.1
    (RadixNode.mk "" [("a", RadixNode.mk "a" [] none none false none none)] none none false
      (some (RadixNode.mk "" [] (some 9) (some "x") false none none)) none)
    "a" [] [] [] [("x", "a")] ⟨9, [("x", "a")]⟩ (by decide) (by decide)

/-- C2: middleware execution is strictly onion-shaped — for any list of
middlewares that each record a marker before and after invoking their
continuation around the marker handler, the dispatcher produces exactly
the pre-markers in order, then the handler marker, then the post-markers
in reverse; for three middlewares the trace is exactly
`pre-M1, pre-M2, pre-M3, H, post-M3, post-M2, post-M1`. -/
theorem claim_C2_onion_order :
    (∀ (names : List String) (s0 : List String),
       handleRequest (appOnion names) ⟨.GET, "/"⟩ s0 =
         (okResponse, s0 ++ preMarks names ++ ["H"] ++ (postMarks names).reverse)) ∧
    handleRequest (appOnion ["M1", "M2", "M3"]) ⟨.GET, "/"⟩ [] =
      (okResponse, ["pre-M1", "pre-M2", "pre-M3", "H", "post-M3", "post-M2", "post-M1"]) :=
  ⟨handleRequest_onion, by rw [handleRequest_onion]; rfl⟩

/-- C3 (amended): a pattern registered with no parameter and no wildcard
marker resolves through the static route cache to the exact registered
handler with an empty parameter set; and provided no two registered
marker-free patterns of the same method are distinct strings normalizing
to the same segment list (such as `/a` and `/a/`), the cache always
agrees with what the tree lookup resolves for that exact literal path. -/
theorem claim_C3_static_cache :
    (∀ (α : Type) (regs : List (HttpMethod × String × α)) (m : HttpMethod) (p : String)
       (h : α), isLitPattern p = true →
       Router.match (regAll (regs ++ [(m, p, h)])) m p = some ⟨h, []⟩) ∧
    (∀ (α : Type) (regs : List (HttpMethod × String × α)) (m : HttpMethod) (p : String)
       (h : α), AliasFree regs → cacheGet (regAll regs) m p = some h →
       Router.match (regAll regs) m p = some ⟨h, []⟩ ∧
       ((regAll regs).getTree m).lookup p = some ⟨h, []⟩) :=
  ⟨fun _ regs m p h hl => match_last_literal regs m p h hl,
   fun _ regs m p h hAF hc =>
     ⟨match_of_cacheGet _ m p h hc, cache_agrees_lookup regs hAF m p h hc⟩⟩

/-- Witness for C3: after registering `/b/c` and then `/a` for GET, the
router resolves `/a` through the cache to its handler with no parameters,
and the tree resolves the same. -/
theorem claim_C3_static_cache_witness :
    Router.match (regAll ([(HttpMethod.GET, "/b/c", (2 : Nat))] ++ [(HttpMethod.GET, "/a", 1)]))
      HttpMethod.GET "/a" = some ⟨1, []⟩ ∧
    ((regAll [(HttpMethod.GET, "/b/c", (2 : Nat)), (HttpMethod.GET, "/a", 1)]).getTree
      HttpMethod.GET).lookup "/a" = some ⟨1, []⟩ := by
  constructor
  · exact claim_C3_static_cache.1 Nat [(HttpMethod.GET, "/b/c", 2)] HttpMethod.GET "/a" 1
      (by decide)
  · exact (claim_C3_static_cache.2 Nat [(HttpMethod.GET, "/b/c", 2), (HttpMethod.GET, "/a", 1)]
      HttpMethod.GET "/a" 1 (by decide) (by decide)).2

/-- Counterexample to C3 as stated: registering `/a` and then `/a/` (two
distinct marker-free pattern strings that normalize to the same segment
list) leaves the cache and the tree in disagreement on the exact literal
path `/a` — the cache (hence `match`) returns the `/a` handler 1 while
the tree lookup resolves the later `/a/` handler 2. -/
theorem claim_C3_static_cache_counterexample :
    Router.match (regAll [(HttpMethod.GET, "/a", (1 : Nat)), (HttpMethod.GET, "/a/", 2)])
      HttpMethod.GET "/a" = some ⟨1, []⟩ ∧
    ((regAll [(HttpMethod.GET, "/a", (1 : Nat)), (HttpMethod.GET, "/a/", 2)]).getTree
      HttpMethod.GET).lookup "/a" = some ⟨2, []⟩ ∧ (1 : Nat) ≠ 2 := by
  refine ⟨by decide, by decide, by decide⟩

/-- C4 (amended): when the lookup takes a wildcard child with at least one
segment remaining, it binds all remaining segments joined by `/` under the
reserved name `wildcard` and immediately succeeds with the wildcard
child's handler or fails, never descending into the wildcard child's
subtree; with zero remaining segments it succeeds through the wildcard
child's handler without adding the reserved binding. -/
theorem claim_C4_wildcard_binding :
    (∀ (n w : RadixNode Nat) (params : Params), n.handler = none →
       n.wildcardChild = some w →
       RadixNode.search n [] params =
         (w.handler.map (fun h => (⟨h, params⟩ : LookupResult Nat)), params)) ∧
    (∀ (n : RadixNode Nat) (seg : String) (rest : List String) (params p1 p4 : Params)
       (w : RadixNode Nat),
       staticAttempt n seg rest params = (none, p1) →
       paramAttempt n seg rest p1 = (none, p4) →
       n.wildcardChild = some w →
       RadixNode.search n (seg :: rest) params =
         (w.handler.map (fun h =>
             (⟨h, mapSet p4 "wildcard" (String.intercalate "/" (seg :: rest))⟩ :
               LookupResult Nat)),
           mapSet p4 "wildcard" (String.intercalate "/" (seg :: rest)))) ∧
    ((RadixTree.empty.insert "/files/*" 7).lookup "/files/a/b" =
      some ⟨7, [("wildcard", "a/b")]⟩) ∧
    ((RadixTree.empty.insert "/files/*" 7).lookup "/files" = some ⟨7, []⟩) :=
  ⟨fun n w params hh hw => search_nil_wildcard n w params hh hw,
   fun n seg rest params p1 p4 w hst hp hw =>
     search_wildcard_fallthrough n seg rest params p1 p4 w hst hp hw,
   by decide, by decide⟩

/-- Witness for C4: a node whose wildcard child holds handler 7 matches
the two remaining segments `a`, `b` as the single binding
`wildcard := a/b`. -/
theorem claim_C4_wildcard_binding_witness :
    RadixNode.search
      (RadixNode.mk "" [] none none false none
        (some (RadixNode.mk "" [] (some 7) none true none none)))
      ["a", "b"] [] = (some ⟨7, [("wildcard", "a/b")]⟩, [("wildcard", "a/b")]) := by
  exact (claim_C4_wildcard_binding.2.1
    (RadixNode.mk "" [] none none false none
      (some (RadixNode.mk "" [] (some 7) none true none none)))
    "a" ["b"] [] [] [] (RadixNode.mk "" [] (some 7) none true none none)
    (by decide) (by decide) rfl).trans (by decide)

/-- Counterexample to C4 as stated: with `/files/*` registered, the lookup
of `/files` reaches the wildcard child with zero remaining segments and
succeeds — but no `wildcard` binding (which the claim requires to be the
empty join of zero segments) is present in the result. -/
theorem claim_C4_wildcard_binding_counterexample :
    (RadixTree.empty.insert "/files/*" (7 : Nat)).lookup "/files" = some ⟨7, []⟩ ∧
    ((RadixTree.empty.insert "/files/*" (7 : Nat)).lookup "/files").map
      (fun r => mapGet r.params "wildcard") = some none := by
  refine ⟨by decide, by decide⟩

/-- C5: a matched pattern binds each parameter segment's name to the
corresponding request path segment — concretely, `/a/:id/b` matched
against `/a/42/b` yields handler 5 with `id := 42`; in general a
registered pattern matching a path pointwise yields the handler and
exactly the bindings of its parameter segments. -/
theorem claim_C5_param_capture :
    ((RadixTree.empty.insert "/a/:id/b" (5 : Nat)).lookup "/a/42/b" =
      some ⟨5, [("id", "42")]⟩) ∧
    (∀ (α : Type) (pat path : List String) (h : α) (p0 : String) (pn0 : Option String)
       (w0 : Bool) (params0 : Params),
       patOk pat path = true → (patNames pat).Nodup →
       (∀ nm ∈ patNames pat, mapGet params0 nm = none) →
       RadixNode.search
         (RadixNode.insertSegs pat h (RadixNode.mk p0 [] none pn0 w0 none none))
         path params0 =
         (some ⟨h, params0 ++ patBindings pat path⟩, params0 ++ patBindings pat path)) :=
  ⟨by decide,
   fun _ pat path h p0 pn0 w0 params0 hok hnd hfr =>
     search_insertSegs_patOk pat h path p0 pn0 w0 params0 hok hnd hfr⟩

/-- Witness for C5: the two-parameter pattern `users/:uid/posts/:pid`
matched against `users/7/posts/9` binds `uid := 7` and `pid := 9`. -/
theorem claim_C5_param_capture_witness :
    RadixNode.search
      (RadixNode.insertSegs ["users", ":uid", "posts", ":pid"] (3 : Nat)
        (RadixNode.mk "" [] none none false none none))
      ["users", "7", "posts", "9"] [] =
      (some ⟨3, [("uid", "7"), ("pid", "9")]⟩, [("uid", "7"), ("pid", "9")]) := by
  exact (claim_C5_param_capture.2 Nat ["users", ":uid", "posts", ":pid"]
    ["users", "7", "posts", "9"] 3 "" none false [] (by decide) (by decide)
    (by intro nm _; rfl)).trans (by decide)

/-- C6: an exception thrown by a request hook, a middleware, or the
handler is caught once at the dispatcher boundary and handed with the
context to the configured error handler (here the instrumented default
handler, whose invocation marker appears exactly once); the default error
handler's status is 500 in both development and production mode. -/
theorem claim_C6_error_boundary (dev : Bool) (e : JsError) (s0 : List String) :
    handleRequest (appThrowHook dev e) ⟨.GET, "/"⟩ s0 =
      (defaultErrorHandler dev e { params := [] }, s0 ++ ["EH"]) ∧
    handleRequest (appThrowMw dev e) ⟨.GET, "/"⟩ s0 =
      (defaultErrorHandler dev e { params := [] }, s0 ++ ["EH"]) ∧
    handleRequest (appThrowH dev e) ⟨.GET, "/"⟩ s0 =
      (defaultErrorHandler dev e { params := [] }, s0 ++ ["EH"]) ∧
    (defaultErrorHandler true e { params := [] }).status = 500 ∧
    (defaultErrorHandler false e { params := [] }).status = 500 :=
  ⟨handleRequest_throwHook dev e s0, handleRequest_throwMw dev e s0,
   handleRequest_throwH dev e s0, rfl, rfl⟩

/-- C7: a request whose method and path match no registered route yields
an immediate 404 and leaves the external state untouched — no hook,
middleware or handler effect occurs. -/
theorem claim_C7_unmatched_404 (σ : Type) (app : KyrinApp σ) (req : Request) (s : σ)
    (h : app.router.match req.method req.path = none) :
    handleRequest app req s = (⟨some "Not Found", 404, []⟩, s) :=
  handleRequest_no_match app req s h

/-- Witness for C7: an application with a marker middleware and marker
handler registered only under GET `/` returns 404 for POST `/` with the
trace unchanged. -/
theorem claim_C7_unmatched_404_witness :
    handleRequest (appOnion ["M"]) ⟨.POST, "/"⟩ ["z"] =
      (⟨some "Not Found", 404, []⟩, ["z"]) :=
  claim_C7_unmatched_404 (List String) (appOnion ["M"]) ⟨.POST, "/"⟩ ["z"] rfl

/-- C8: a middleware that never invokes its continuation stops the chain:
no inner middleware and not the handler runs (no inner marker is
recorded), and its own response is the dispatcher's final result; in
general, composing such a middleware in front of any suffix yields the
middleware's own output regardless of the continuation. -/
theorem claim_C8_early_termination :
    (∀ (names₁ : List String) (r : Response) (names₂ : List String) (s0 : List String),
       handleRequest (appBlock names₁ r names₂) ⟨.GET, "/"⟩ s0 =
         (r, s0 ++ preMarks names₁ ++ ["block"] ++ (postMarks names₁).reverse)) ∧
    (∀ (σ : Type) (m : Middleware σ) (ms : List (Middleware σ)) (st : St σ)
       (next next' : Next σ), (∀ st' n₁ n₂, m st' n₁ = m st' n₂) →
       compose (m :: ms) st next = m st next') :=
  ⟨handleRequest_block,
   fun _ m ms st next next' hm => hm st (fun st2 => compose ms st2 next) next'⟩

/-- Witness for C8: the blocking middleware composed in front of the
terminal handler continuation returns its own response with the dead
continuation never consulted. -/
theorem claim_C8_early_termination_witness :
    compose [blockMw ⟨some "x", 403, []⟩] ({ params := [] }, ([] : List String))
      (terminalNext markH) =
      blockMw ⟨some "x", 403, []⟩ ({ params := [] }, ([] : List String))
        (fun st => (Except.ok none, st)) :=
  claim_C8_early_termination.2 (List String) (blockMw ⟨some "x", 403, []⟩) []
    ({ params := [] }, []) (terminalNext markH) (fun st => (Except.ok none, st))
    (fun _ _ _ => rfl)

/-- C9: normalization of handler results — a `Response` passes through
unchanged; a string becomes a `text/plain` response with the context's
pending status (which defaults to 200 on a fresh context) and its pending
headers spread over the content type; `null`/`undefined` becomes an empty
204 response; any other value is JSON-serialized with
`application/json` and the same status and header merge. -/
theorem claim_C9_normalization (r : Response) (s : String) (o : JsonObj) (ctx : Context)
    (ps : List (String × String)) :
    toResponse (.resp r) ctx = r ∧
    toResponse (.str s) ctx =
      ⟨some s, ctx.setStatus, objMerge [("Content-Type", "text/plain")] ctx.setHeaders⟩ ∧
    toResponse .nul ctx = ⟨none, 204, []⟩ ∧
    toResponse (.obj o) ctx =
      ⟨some (jsonStringify o), ctx.setStatus,
        objMerge [("Content-Type", "application/json")] ctx.setHeaders⟩ ∧
    ({ params := ps } : Context).setStatus = 200 :=
  ⟨rfl, rfl, rfl, rfl, rfl⟩

/-- C10: a request hook returning a complete response short-circuits the
dispatch — its response is returned at once, and the remaining request
hooks, the middleware chain, the handler and the response hooks leave no
trace (the code skips response hooks after a short-circuit). -/
theorem claim_C10_hook_short_circuit (names₁ : List String) (r : Response)
    (names₂ names₃ names₄ : List String) (s0 : List String) :
    handleRequest (appShort names₁ r names₂ names₃ names₄) ⟨.GET, "/"⟩ s0 =
      (r, s0 ++ names₁ ++ ["short"]) :=
  handleRequest_short names₁ r names₂ names₃ names₄ s0

end Kyrin
